import Mathlib

/-!
Verification of the beam-center estimation and coordinate-reprojection
subsystem of pyxem's `pyxem/utils/expt_utils.py` against its design
specification.

The Python functions are shallowly embedded.  Pure numerical code is
translated to Lean functions over `ℝ` (where trigonometry or square roots
are involved) or `ℚ` (an exact stand-in for Python floats where only field
arithmetic and comparisons occur).  External library routines (scipy
filters, scipy interpolant fitting, skimage drawing/registration) are taken
as function parameters, since the repository treats them as collaborators;
only the contracts the claims depend on (e.g. which exception class
`scipy.interpolate.interp1d` raises) are modelled explicitly, and those
models are documented at their definitions.  NumPy primitives that the
source leans on (`linspace`, `arange`, slicing, `argmax`, `argmin`,
`unravel_index`) are modelled faithfully, including `linspace`'s default
inclusive endpoint and `argmax`/`argmin`'s first-occurrence tie-breaking.
-/

namespace Pyxem

/-- Model of `numpy.linspace(a, b, num=n)` with the default
`endpoint=True`: `n` samples from `a` to `b` inclusive, step
`(b-a)/(n-1)`.  For `n = 1` numpy returns `[a]`, which the formula also
yields here since division by zero is zero. -/
def linspace {K : Type} [DivisionRing K] (a b : K) (n : ℕ) : List K :=
  (List.range n).map (fun (i : ℕ) => a + (i : K) * ((b - a) / ((n : K) - 1)))

/-- Model of `numpy.arange(a, b)` over integers: the integers in the
half-open interval `[a, b)`. -/
def arange (a b : ℤ) : List ℤ :=
  (List.range (b - a).toNat).map (fun (i : ℕ) => a + (i : ℤ))

/-- Normalisation of one python slice endpoint for a sequence of length
`n`: negative indices count from the end, and endpoints are clamped into
`[0, n]`. -/
def npSliceIdx (i : ℤ) (n : ℕ) : ℕ :=
  if i < 0 then ((n : ℤ) + i).toNat else min i.toNat n

/-- Model of python basic slicing `xs[a:b]` (step 1) with numpy/python
semantics for negative and out-of-range endpoints. -/
def npSlice {α : Type} (a b : ℤ) (xs : List α) : List α :=
  (xs.drop (npSliceIdx a xs.length)).take
    (npSliceIdx b xs.length - npSliceIdx a xs.length)

/-- Model of `numpy.argmax`: first index holding the maximum value
(`0` on an empty list, where numpy would raise instead). -/
def npArgmax {α : Type} [LinearOrder α] (l : List α) : ℕ :=
  l.findIdx (fun x => l.all (fun y => decide (y ≤ x)))

/-- Model of `numpy.argmin`: first index holding the minimum value. -/
def npArgmin {α : Type} [LinearOrder α] (l : List α) : ℕ :=
  l.findIdx (fun x => l.all (fun y => decide (x ≤ y)))

theorem exists_list_max {α : Type} [LinearOrder α] {l : List α} (h : l ≠ []) :
    ∃ x ∈ l, ∀ y ∈ l, y ≤ x := by
  induction l with
  | nil => exact absurd rfl h
  | cons a t ih =>
    cases t with
    | nil => exact ⟨a, by simp, by simp⟩
    | cons b t2 =>
      obtain ⟨x, hx, hall⟩ := ih (by simp)
      rcases le_total a x with hax | hxa
      · exact ⟨x, List.mem_cons_of_mem a hx, by
          intro y hy
          rcases List.mem_cons.mp hy with rfl | hy2
          · exact hax
          · exact hall y hy2⟩
      · exact ⟨a, List.mem_cons_self a _, by
          intro y hy
          rcases List.mem_cons.mp hy with rfl | hy2
          · exact le_rfl
          · exact le_trans (hall y hy2) hxa⟩

theorem exists_list_min {α : Type} [LinearOrder α] {l : List α} (h : l ≠ []) :
    ∃ x ∈ l, ∀ y ∈ l, x ≤ y :=
  let ⟨x, hx, hall⟩ := exists_list_max (α := αᵒᵈ) h
  ⟨x, hx, hall⟩

theorem npArgmax_lt_length {α : Type} [LinearOrder α] {l : List α} (h : l ≠ []) :
    npArgmax l < l.length := by
  obtain ⟨x, hx, hall⟩ := exists_list_max h
  exact List.findIdx_lt_length_of_exists ⟨x, hx, by
    simp only [List.all_eq_true, decide_eq_true_eq]
    exact hall⟩

theorem npArgmin_lt_length {α : Type} [LinearOrder α] {l : List α} (h : l ≠ []) :
    npArgmin l < l.length := by
  obtain ⟨x, hx, hall⟩ := exists_list_min h
  exact List.findIdx_lt_length_of_exists ⟨x, hx, by
    simp only [List.all_eq_true, decide_eq_true_eq]
    exact hall⟩

theorem npArgmax_le {α : Type} [LinearOrder α] (d : α) {l : List α}
    (h : l ≠ []) : ∀ y ∈ l, y ≤ l.getD (npArgmax l) d := by
  intro y hy
  have hlt := npArgmax_lt_length h
  rw [List.getD_eq_getElem l d hlt]
  have := List.findIdx_getElem (w := hlt)
  simp only [List.all_eq_true, decide_eq_true_eq] at this
  exact this y hy

theorem npArgmin_le {α : Type} [LinearOrder α] (d : α) {l : List α}
    (h : l ≠ []) : ∀ y ∈ l, l.getD (npArgmin l) d ≤ y := by
  intro y hy
  have hlt := npArgmin_lt_length h
  rw [List.getD_eq_getElem l d hlt]
  have := List.findIdx_getElem (w := hlt)
  simp only [List.all_eq_true, decide_eq_true_eq] at this
  exact this y hy

theorem npArgmin_first {α : Type} [LinearOrder α] (d : α) {l : List α}
    (h : l ≠ []) : ∀ j, j < npArgmin l → l.getD (npArgmin l) d < l.getD j d := by
  intro j hj
  have hjlen : j < l.length := lt_trans hj (npArgmin_lt_length h)
  have hfail := List.not_of_lt_findIdx hj
  simp only [List.all_eq_false, decide_eq_true_eq, not_le] at hfail
  obtain ⟨y, hy, hylt⟩ := hfail
  rw [List.getD_eq_getElem l d hjlen]
  exact lt_of_le_of_lt (npArgmin_le d h y hy) hylt

theorem linspace_length {K : Type} [DivisionRing K] (a b : K) (n : ℕ) :
    (linspace a b n).length = n := by
  unfold linspace
  rw [List.length_map, List.length_range]

theorem arange_length (a b : ℤ) : (arange a b).length = (b - a).toNat := by
  unfold arange
  rw [List.length_map, List.length_range]

theorem arange_getD (a b : ℤ) (i : ℕ) (h : i < (b - a).toNat) :
    (arange a b).getD i 0 = a + (i : ℤ) := by
  have hlen : i < (arange a b).length := by rw [arange_length]; exact h
  rw [List.getD_eq_getElem _ _ hlen]
  unfold arange
  simp only [List.getElem_map, List.getElem_range]

/-! ## CoordinateTransform: `_cart2polar` and `_polar2cart`

Source: `pyxem/utils/expt_utils.py`, lines 72-107.  `np.arctan2(y, x)` is
the argument of the complex number `x + y*I`, which is how it is modelled
here. -/

/-- Embedding of `_cart2polar`: `r = sqrt(x**2 + y**2)`,
`theta = -np.arctan2(y, x)`. -/
noncomputable def cart2polar (x y : ℝ) : ℝ × ℝ :=
  (Real.sqrt (x ^ 2 + y ^ 2), -Complex.arg ⟨x, y⟩)

/-- Embedding of `_polar2cart`: `x = r * np.cos(theta)`,
`y = -r * np.sin(theta)`. -/
noncomputable def polar2cart (r theta : ℝ) : ℝ × ℝ :=
  (r * Real.cos theta, -(r * Real.sin theta))

/-- Claim C1: for every pair of real numbers (x, y), composing
`_cart2polar` with `_polar2cart` reproduces the original (x, y) exactly
over the reals. -/
theorem cart2polar_polar2cart_roundtrip (x y : ℝ) :
    polar2cart (cart2polar x y).1 (cart2polar x y).2 = (x, y) := by
  by_cases hz : (⟨x, y⟩ : ℂ) = 0
  · have hx : x = 0 := by
      have := congrArg Complex.re hz
      simpa using this
    have hy : y = 0 := by
      have := congrArg Complex.im hz
      simpa using this
    subst hx; subst hy
    simp [polar2cart, cart2polar]
  · have habs : Real.sqrt (x ^ 2 + y ^ 2) = Complex.abs ⟨x, y⟩ := by
      rw [Complex.abs_apply, Complex.normSq_mk]
      ring_nf
    have habsne : Complex.abs ⟨x, y⟩ ≠ 0 := Complex.abs.ne_zero hz
    have hre : (⟨x, y⟩ : ℂ).re = x := rfl
    have him : (⟨x, y⟩ : ℂ).im = y := rfl
    simp only [polar2cart, cart2polar, Real.cos_neg, Real.sin_neg,
      Complex.cos_arg hz, Complex.sin_arg, hre, him, habs, Prod.mk.injEq]
    constructor
    · field_simp
    · field_simp

/-! ## PeakLocator1D: `_find_peak_max`

Source: `pyxem/utils/expt_utils.py`, lines 619-664.  The Gaussian
smoothing (`ndi.filters.gaussian_filter1d`) and the fitted interpolant
produced by `scipy.interpolate.interp1d` are external collaborators and
enter as function parameters.  The `try`/`except ValueError` control flow,
the numpy slice `y1[c1 - w : c1 + w + 1]`, `np.linspace`, and `np.argmax`
are embedded.  Signals are over `ℚ`, an exact stand-in for floats. -/

/-- Python exception classes distinguished by the embedded control flow. -/
inductive PyErr where
  | valueError
  | notImplementedError
deriving DecidableEq

/-- The `kind` argument of `scipy.interpolate.interp1d`: an interpolation
name or a spline order. -/
inductive InterpKind where
  | str (s : String)
  | int (n : ℕ)
deriving DecidableEq

/-- The interpolation kinds `scipy.interpolate.interp1d` accepts as
strings (per its documentation, quoted in the source docstring). -/
def interp1dValidKinds : List String :=
  ["linear", "nearest", "zero", "slinear", "quadratic", "cubic",
   "previous", "next"]

/-- Whether a `kind` passes interp1d's kind validation; any integer order
is accepted. -/
def interpKindValid : InterpKind → Bool
  | .str s => interp1dValidKinds.contains s
  | .int _ => true

/-- Models the argument validation done by the constructor of
`scipy.interpolate.interp1d(x, y, kind)`.  The first statement of
`interp1d.__init__` is the call to `_Interpolator1D.__init__(self, x, y,
axis=axis)`, whose `_set_yi` raises the `ValueError` for an `x`/`y`
length mismatch; only after that does the kind validation run, raising
`NotImplementedError` for an unrecognised string `kind`.  So a length
mismatch wins over an invalid kind. -/
def interp1dCheck (xs ys : List ℚ) (kind : InterpKind) : Except PyErr Unit :=
  if xs.length = ys.length then
    if interpKindValid kind then .ok () else .error .notImplementedError
  else .error .valueError

/-- Embedding of `_find_peak_max(arr, sigma, upsample_factor, window,
kind)`.  `smooth` stands for `ndi.filters.gaussian_filter1d` (with the
sigma passed through) and `interpEval` for evaluation of the interpolant
returned by `interp1d`.  The `try` block catches exactly `ValueError` and
then returns the coarse estimate `c1`; any other exception propagates. -/
def find_peak_max (smooth : ℕ → List ℚ → List ℚ)
    (interpEval : List ℚ → List ℚ → InterpKind → ℚ → ℚ)
    (arr : List ℚ) (sigma : ℕ) (upsample_factor : ℕ) (window : ℕ)
    (kind : InterpKind) : Except PyErr ℚ :=
  let y1 := smooth sigma arr
  let c1 := npArgmax y1
  let m := upsample_factor
  let w := window
  let win_len := 2 * w + 1
  let r1 := linspace ((c1 : ℚ) - (w : ℚ)) ((c1 : ℚ) + (w : ℚ)) win_len
  let ys := npSlice ((c1 : ℤ) - (w : ℤ)) ((c1 : ℤ) + (w : ℤ) + 1) y1
  match interp1dCheck r1 ys kind with
  | .error .valueError => .ok (c1 : ℚ)
  | .error e => .error e
  | .ok _ =>
    let r2 := linspace ((c1 : ℚ) - (w : ℚ)) ((c1 : ℚ) + (w : ℚ)) (win_len * m)
    let y2 := r2.map (interpEval r1 ys kind)
    let c2 := (npArgmax y2 : ℚ) / (m : ℚ)
    .ok (c2 + (c1 : ℚ) - (w : ℚ))

theorem npSlice_length {α : Type} (a b : ℤ) (xs : List α) :
    (npSlice a b xs).length =
      min (npSliceIdx b xs.length - npSliceIdx a xs.length)
        (xs.length - npSliceIdx a xs.length) := by
  unfold npSlice
  rw [List.length_take, List.length_drop]

theorem npSlice_edge_window_short {α : Type} (xs : List α) (c w : ℕ)
    (hc : c < xs.length) (hedge : c < w ∨ xs.length ≤ c + w) :
    (npSlice ((c : ℤ) - (w : ℤ)) ((c : ℤ) + (w : ℤ) + 1) xs).length ≠
      2 * w + 1 := by
  rw [npSlice_length]
  unfold npSliceIdx
  split_ifs <;> omega

/-- Claim C4: when the smoothed argmax `c1` lies within `window` samples
of either end of the signal (so the slice `y1[c1-w : c1+w+1]` is shorter
than the `2*window+1` interpolation nodes and `interp1d` raises
`ValueError`), `_find_peak_max` returns the un-refined integer estimate
`c1` and raises no exception. -/
theorem find_peak_max_edge_fallback (smooth : ℕ → List ℚ → List ℚ)
    (interpEval : List ℚ → List ℚ → InterpKind → ℚ → ℚ)
    (arr : List ℚ) (sigma upsample_factor window : ℕ) (kind : InterpKind)
    (hkind : interpKindValid kind = true)
    (hne : smooth sigma arr ≠ [])
    (hedge : npArgmax (smooth sigma arr) < window ∨
      (smooth sigma arr).length ≤ npArgmax (smooth sigma arr) + window) :
    find_peak_max smooth interpEval arr sigma upsample_factor window kind =
      .ok ((npArgmax (smooth sigma arr) : ℚ)) := by
  have hc : npArgmax (smooth sigma arr) < (smooth sigma arr).length :=
    npArgmax_lt_length hne
  have hys := npSlice_edge_window_short (smooth sigma arr)
    (npArgmax (smooth sigma arr)) window hc hedge
  unfold find_peak_max
  have hcheck : interp1dCheck
      (linspace ((npArgmax (smooth sigma arr) : ℚ) - (window : ℚ))
        ((npArgmax (smooth sigma arr) : ℚ) + (window : ℚ)) (2 * window + 1))
      (npSlice ((npArgmax (smooth sigma arr) : ℤ) - (window : ℤ))
        ((npArgmax (smooth sigma arr) : ℤ) + (window : ℤ) + 1)
        (smooth sigma arr)) kind = .error .valueError := by
    unfold interp1dCheck
    rw [linspace_length]
    rw [if_neg (fun h => hys h.symm)]
  simp only [hcheck]

/-- Witness for C4 at a concrete input: signal `[1, 3, 2]`, window 10. -/
theorem find_peak_max_edge_fallback_witness :
    find_peak_max (fun _ l => l) (fun _ _ _ _ => 0) [1, 3, 2] 1 50 10
      (.int 3) = .ok 1 := by
  have h := find_peak_max_edge_fallback (fun _ l => l) (fun _ _ _ _ => 0)
    [1, 3, 2] 1 50 10 (.int 3) (by decide) (by decide) (by decide)
  simpa using h

/-! ## `subtract_background_median`

Source: `pyxem/utils/expt_utils.py`, lines 512-539.  The two median
filters (`scipy.ndimage.median_filter` and `skimage.filters.median`
together with its `uint16` round trip) are external collaborators passed
as parameters. -/

/-- Elementwise matrix subtraction, modelling `z - filtered`. -/
def matSub (a b : List (List ℚ)) : List (List ℚ) :=
  List.zipWith (List.zipWith (fun x y => x - y)) a b

/-- Elementwise `np.maximum(·, 0)`. -/
def matMaxZero (a : List (List ℚ)) : List (List ℚ) :=
  a.map (List.map (fun v => max v 0))

/-- Embedding of `subtract_background_median(z, footprint,
implementation)`: dispatches on the implementation string and raises
`ValueError` for anything other than `"scipy"` or `"skimage"`. -/
def subtract_background_median
    (medianScipy medianSkimage : ℕ → List (List ℚ) → List (List ℚ))
    (z : List (List ℚ)) (footprint : ℕ) (implementation : String) :
    Except PyErr (List (List ℚ)) :=
  if implementation = "scipy" then
    .ok (matMaxZero (matSub z (medianScipy footprint z)))
  else if implementation = "skimage" then
    .ok (matMaxZero (matSub z (medianSkimage footprint z)))
  else .error .valueError

theorem npSlice_inner_window_length {α : Type} (xs : List α) (c w : ℕ)
    (h1 : w ≤ c) (h2 : c + w < xs.length) :
    (npSlice ((c : ℤ) - (w : ℤ)) ((c : ℤ) + (w : ℤ) + 1) xs).length =
      2 * w + 1 := by
  rw [npSlice_length]
  unfold npSliceIdx
  split_ifs <;> omega

/-- Counterexample to claim C6: an unknown interpolation kind does NOT
always surface an error.  In scipy, `interp1d.__init__` runs
`_Interpolator1D.__init__` (raising the length-mismatch `ValueError`)
before the kind validation, so on the signal `[1, 3, 2]` with window 10
— whose slice around the argmax is too short — the `ValueError` is
raised first, the `except ValueError` clause catches it, and
`_find_peak_max` returns the numeric coarse estimate 1 even though the
kind string `"cubicspline"` is invalid. -/
theorem invalid_kind_not_surfaced_at_edge :
    find_peak_max (fun _ l => l) (fun _ _ _ _ => 0) [1, 3, 2] 1 50 10
        (.str "cubicspline") = .ok 1 ∧
      interpKindValid (.str "cubicspline") = false := by
  constructor
  · have h : find_peak_max (fun _ l => l) (fun _ _ _ _ => 0) [1, 3, 2] 1
        50 10 (.str "cubicspline") = .ok ((1 : ℕ) : ℚ) := rfl
    rw [h]
    norm_num
  · decide

/-- Claim C6 amended: an unknown filter-implementation string makes
`subtract_background_median` fail immediately with `ValueError`; an
unknown interpolation kind string makes `_find_peak_max` fail with the
`NotImplementedError` raised by `interp1d` (which the `except
ValueError` clause does not catch) provided the interpolation window
`[c1-window, c1+window]` lies within the signal bounds — when it runs
outside them, interp1d's length-mismatch `ValueError` fires first and is
caught, and the numeric coarse estimate is returned despite the invalid
kind. -/
theorem invalid_configuration_rejected :
    (∀ (mS mSk : ℕ → List (List ℚ) → List (List ℚ)) (z : List (List ℚ))
      (fp : ℕ) (impl : String), impl ≠ "scipy" → impl ≠ "skimage" →
      subtract_background_median mS mSk z fp impl = .error .valueError) ∧
    (∀ (smooth : ℕ → List ℚ → List ℚ)
      (interpEval : List ℚ → List ℚ → InterpKind → ℚ → ℚ)
      (arr : List ℚ) (sigma m w : ℕ) (s : String),
      interpKindValid (.str s) = false →
      w ≤ npArgmax (smooth sigma arr) →
      npArgmax (smooth sigma arr) + w < (smooth sigma arr).length →
      find_peak_max smooth interpEval arr sigma m w (.str s) =
        .error .notImplementedError) := by
  constructor
  · intro mS mSk z fp impl h1 h2
    unfold subtract_background_median
    rw [if_neg h1, if_neg h2]
  · intro smooth interpEval arr sigma m w s hbad h1 h2
    have hlen := npSlice_inner_window_length (smooth sigma arr)
      (npArgmax (smooth sigma arr)) w h1 h2
    unfold find_peak_max
    have hcheck : interp1dCheck
        (linspace ((npArgmax (smooth sigma arr) : ℚ) - (w : ℚ))
          ((npArgmax (smooth sigma arr) : ℚ) + (w : ℚ)) (2 * w + 1))
        (npSlice ((npArgmax (smooth sigma arr) : ℤ) - (w : ℤ))
          ((npArgmax (smooth sigma arr) : ℤ) + (w : ℤ) + 1)
          (smooth sigma arr)) (.str s) = .error .notImplementedError := by
      unfold interp1dCheck
      rw [if_pos (by rw [linspace_length, hlen])]
      rw [hbad]
      simp
    simp only [hcheck]

/-- Witness for the amended C6 at concrete inputs: implementation string
`"torch"`, and kind `"cubicspline"` on the signal `[1, 3, 2]` with
window 1 (interpolation window inside the signal bounds). -/
theorem invalid_configuration_rejected_witness :
    subtract_background_median (fun _ z => z) (fun _ z => z) [[1]] 3
        "torch" = .error .valueError ∧
      find_peak_max (fun _ l => l) (fun _ _ _ _ => 0) [1, 3, 2] 1 50 1
        (.str "cubicspline") = .error .notImplementedError :=
  ⟨invalid_configuration_rejected.1 (fun _ z => z) (fun _ z => z) [[1]] 3
      "torch" (by decide) (by decide),
    invalid_configuration_rejected.2 (fun _ l => l) (fun _ _ _ _ => 0)
      [1, 3, 2] 1 50 1 "cubicspline" (by decide) (by decide) (by decide)⟩

/-! ## CoordinateTransform: `ellipsoid_in_cartesian`

Source: `pyxem/utils/expt_utils.py`, lines 221-279.  The matrix product
`r_mat.transpose() * t_sin` is the outer product, so entry `(i, j)` of
`x_circle` is `r_i * sin(theta_j) * h_o`, and of `y_circle` is
`r_i * cos(theta_j) * k_o`; the embedding writes these entries
directly. -/

/-- Embedding of `ellipsoid_in_cartesian(r_list, theta_list, center,
axes_lengths, angle)`.  Returns the pair of coordinate grids `(X, Y)`,
each of shape `(len(r_list), len(theta_list))`. -/
noncomputable def ellipsoid_in_cartesian (r_list theta_list : List ℝ)
    (center : ℝ × ℝ) (axes_lengths : Option (ℝ × ℝ)) (angle : Option ℝ) :
    List (List ℝ) × List (List ℝ) :=
  let h_o : ℝ := match axes_lengths with
    | some al => max al.1 al.2 / ((al.1 + al.2) / 2)
    | none => 1
  let k_o : ℝ := match axes_lengths with
    | some al => min al.1 al.2 / ((al.1 + al.2) / 2)
    | none => 1
  match angle with
  | some a =>
    (r_list.map (fun r => theta_list.map (fun t =>
        r * Real.sin t * h_o * Real.cos a - r * Real.cos t * k_o * Real.sin a
          + center.1)),
     r_list.map (fun r => theta_list.map (fun t =>
        r * Real.cos t * k_o * Real.cos a + r * Real.sin t * h_o * Real.sin a
          + center.2)))
  | none =>
    (r_list.map (fun r => theta_list.map (fun t =>
        r * Real.sin t * h_o + center.1)),
     r_list.map (fun r => theta_list.map (fun t =>
        r * Real.cos t * k_o + center.2)))

theorem ellipsoid_fst_length (r_list theta_list : List ℝ) (center : ℝ × ℝ)
    (axes_lengths : Option (ℝ × ℝ)) (angle : Option ℝ) :
    (ellipsoid_in_cartesian r_list theta_list center axes_lengths
      angle).1.length = r_list.length := by
  cases angle <;> simp [ellipsoid_in_cartesian]

theorem ellipsoid_snd_length (r_list theta_list : List ℝ) (center : ℝ × ℝ)
    (axes_lengths : Option (ℝ × ℝ)) (angle : Option ℝ) :
    (ellipsoid_in_cartesian r_list theta_list center axes_lengths
      angle).2.length = r_list.length := by
  cases angle <;> simp [ellipsoid_in_cartesian]

theorem ellipsoid_fst_row_length (r_list theta_list : List ℝ)
    (center : ℝ × ℝ) (axes_lengths : Option (ℝ × ℝ)) (angle : Option ℝ) :
    ∀ row ∈ (ellipsoid_in_cartesian r_list theta_list center axes_lengths
      angle).1, row.length = theta_list.length := by
  intro row hrow
  cases angle <;> simp only [ellipsoid_in_cartesian, List.mem_map] at hrow <;>
    obtain ⟨r, _, rfl⟩ := hrow <;> simp

theorem ellipsoid_snd_row_length (r_list theta_list : List ℝ)
    (center : ℝ × ℝ) (axes_lengths : Option (ℝ × ℝ)) (angle : Option ℝ) :
    ∀ row ∈ (ellipsoid_in_cartesian r_list theta_list center axes_lengths
      angle).2, row.length = theta_list.length := by
  intro row hrow
  cases angle <;> simp only [ellipsoid_in_cartesian, List.mem_map] at hrow <;>
    obtain ⟨r, _, rfl⟩ := hrow <;> simp

/-- Claim C8: with `axes_lengths=None` and `angle=None` the generated
grids have shape `(len(r_list), len(theta_list))` and every point lies on
the circle of radius `r_list[i]` about the center:
`(X[i,j] - cx)^2 + (Y[i,j] - cy)^2 = r_i^2`. -/
theorem ellipsoid_defaults_circle (r_list theta_list : List ℝ)
    (center : ℝ × ℝ) (i j : ℕ) (hi : i < r_list.length)
    (hj : j < theta_list.length) :
    (ellipsoid_in_cartesian r_list theta_list center none none).1.length =
        r_list.length ∧
      (ellipsoid_in_cartesian r_list theta_list center none
          none).2.length = r_list.length ∧
      (((ellipsoid_in_cartesian r_list theta_list center none
          none).1.getD i []).length = theta_list.length) ∧
      (((ellipsoid_in_cartesian r_list theta_list center none
          none).2.getD i []).length = theta_list.length) ∧
      ((((ellipsoid_in_cartesian r_list theta_list center none
            none).1.getD i []).getD j 0 - center.1) ^ 2 +
          (((ellipsoid_in_cartesian r_list theta_list center none
            none).2.getD i []).getD j 0 - center.2) ^ 2 =
        (r_list.getD i 0) ^ 2) := by
  have hx : (ellipsoid_in_cartesian r_list theta_list center none none).1 =
      r_list.map (fun r => theta_list.map (fun t =>
        r * Real.sin t * 1 + center.1)) := rfl
  have hy : (ellipsoid_in_cartesian r_list theta_list center none none).2 =
      r_list.map (fun r => theta_list.map (fun t =>
        r * Real.cos t * 1 + center.2)) := rfl
  have hxl : i < (r_list.map (fun r => theta_list.map (fun t =>
      r * Real.sin t * 1 + center.1))).length := by
    rw [List.length_map]; exact hi
  have hyl : i < (r_list.map (fun r => theta_list.map (fun t =>
      r * Real.cos t * 1 + center.2))).length := by
    rw [List.length_map]; exact hi
  refine ⟨by rw [hx, List.length_map], by rw [hy, List.length_map], ?_, ?_, ?_⟩
  · rw [hx, List.getD_eq_getElem _ _ hxl, List.getElem_map, List.length_map]
  · rw [hy, List.getD_eq_getElem _ _ hyl, List.getElem_map, List.length_map]
  · rw [hx, hy, List.getD_eq_getElem _ _ hxl, List.getD_eq_getElem _ _ hyl,
      List.getElem_map, List.getElem_map]
    have hjx : j < (theta_list.map (fun t =>
        r_list[i] * Real.sin t * 1 + center.1)).length := by
      rw [List.length_map]; exact hj
    have hjy : j < (theta_list.map (fun t =>
        r_list[i] * Real.cos t * 1 + center.2)).length := by
      rw [List.length_map]; exact hj
    rw [List.getD_eq_getElem _ _ hjx, List.getD_eq_getElem _ _ hjy,
      List.getElem_map, List.getElem_map, List.getD_eq_getElem _ _ hi]
    linear_combination (r_list[i] ^ 2) *
      Real.sin_sq_add_cos_sq theta_list[j]

/-- Witness for C8 at a concrete input: one radius, one angle. -/
theorem ellipsoid_defaults_circle_witness :
    (ellipsoid_in_cartesian [2] [0] (5, 7) none none).1.length = 1 ∧
      (ellipsoid_in_cartesian [2] [0] (5, 7) none none).2.length = 1 ∧
      (((ellipsoid_in_cartesian [2] [0] (5, 7) none
          none).1.getD 0 []).length = 1) ∧
      (((ellipsoid_in_cartesian [2] [0] (5, 7) none
          none).2.getD 0 []).length = 1) ∧
      ((((ellipsoid_in_cartesian [2] [0] (5, 7) none
            none).1.getD 0 []).getD 0 0 - (5 : ℝ)) ^ 2 +
          (((ellipsoid_in_cartesian [2] [0] (5, 7) none
            none).2.getD 0 []).getD 0 0 - (7 : ℝ)) ^ 2 =
        (([(2 : ℝ)].getD 0 0) ^ 2)) :=
  ellipsoid_defaults_circle [2] [0] (5, 7) 0 0 (by decide) (by decide)

/-! ## PolarReprojector: `reproject_cartesian_to_polar`

Source: `pyxem/utils/expt_utils.py`, lines 282-338.  The bilinear spline
fitted by `RectBivariateSpline(initial_x, initial_y, intensity, kx=1,
ky=1)` is an external scipy collaborator; its point evaluator `.ev` enters
as the parameter `fit`, applied to the (possibly sentinel-masked)
intensity.  `img.mask` is modelled by an optional boolean grid.  Because
`intensity = img.data` aliases the caller's array, the statement
`intensity[img.mask] = -999999` mutates the input in place; the embedding
therefore returns the post-call input intensity alongside the polar
image.  The final `np.reshape` to `(radius[1]-radius[0], phase_width)` is
the identity here because the evaluated grid already has exactly that
shape. -/

/-- The angular samples of `reproject_cartesian_to_polar`:
`np.linspace(0, 2*np.pi, num=phase_width)`, whose default
`endpoint=True` includes `2*pi` itself. -/
noncomputable def reprojectThetaSamples (phase_width : ℕ) : List ℝ :=
  linspace 0 (2 * Real.pi) phase_width

/-- The radial samples of `reproject_cartesian_to_polar`:
`np.arange(radius[0], radius[1], 1)`. -/
def reprojectRadSamples (radius : ℤ × ℤ) : List ℤ :=
  arange radius.1 radius.2

/-- Embedding of `reproject_cartesian_to_polar(img, center, angle,
lengths, radius, phase_width)`.  Returns the polar image together with
the input intensity as it stands after the call (the source mutates the
masked pixels of the input in place). -/
noncomputable def reproject_cartesian_to_polar
    (fit : List (List ℝ) → ℝ → ℝ → ℝ)
    (img : List (List ℝ)) (mask : Option (List (List Bool)))
    (center : Option (ℝ × ℝ)) (angle : Option ℝ)
    (lengths : Option (ℝ × ℝ)) (radius : ℤ × ℤ) (phase_width : ℕ) :
    List (List ℝ) × List (List ℝ) :=
  let img_shape : ℕ × ℕ := (img.length, (img.headD []).length)
  let c : ℝ × ℝ := match center with
    | some c0 => c0
    | none => ((img_shape.1 : ℝ) / 2, (img_shape.2 : ℝ) / 2)
  let final_the := reprojectThetaSamples phase_width
  let final_rad : List ℝ :=
    (reprojectRadSamples radius).map (fun (z : ℤ) => (z : ℝ))
  let fxy := ellipsoid_in_cartesian final_rad final_the c lengths angle
  let intensity : List (List ℝ) := match mask with
    | some mk => List.zipWith (List.zipWith
        (fun v b => if b then (-999999 : ℝ) else v)) img mk
    | none => img
  let polar := List.zipWith (List.zipWith (fit intensity)) fxy.1 fxy.2
  (polar.map (List.map (fun v => if v < 0 then (-10 : ℝ) else v)), intensity)

/-- Claim C2: for every image, mask, center, ellipse parameters and
integer radius pair with `radius.1 <= radius.2`, the polar image has
exactly `radius.2 - radius.1` rows of `phase_width` entries each; the
shape depends only on the radius arguments and `phase_width` (all other
arguments are universally quantified), including the empty range. -/
theorem zipWith_zipWith_row_length {α β γ : Type} (g : α → β → γ)
    (A : List (List α)) (B : List (List β)) (n : ℕ)
    (hA : ∀ ra ∈ A, ra.length = n) (hB : ∀ rb ∈ B, rb.length = n) :
    ∀ row ∈ List.zipWith (List.zipWith g) A B, row.length = n := by
  induction A generalizing B with
  | nil => intro row hrow; simp at hrow
  | cons a A2 ih =>
    intro row hrow
    cases B with
    | nil => simp at hrow
    | cons b B2 =>
      rw [List.zipWith_cons_cons, List.mem_cons] at hrow
      rcases hrow with rfl | hrow2
      · rw [List.length_zipWith, hA a (List.mem_cons_self a A2),
          hB b (List.mem_cons_self b B2), min_self]
      · exact ih B2 (fun ra hra => hA ra (List.mem_cons_of_mem a hra))
          (fun rb hrb => hB rb (List.mem_cons_of_mem b hrb)) row hrow2

/-- Claim C2: for every image, mask, center, ellipse parameters and
integer radius pair with `radius.1 <= radius.2`, the polar image has
exactly `radius.2 - radius.1` rows of `phase_width` entries each; the
shape depends only on the radius arguments and `phase_width` (all other
arguments are universally quantified), including the empty range
`radius.1 = radius.2`, which gives `0 × phase_width`. -/
theorem reproject_shape (fit : List (List ℝ) → ℝ → ℝ → ℝ)
    (img : List (List ℝ)) (mask : Option (List (List Bool)))
    (center : Option (ℝ × ℝ)) (angle : Option ℝ)
    (lengths : Option (ℝ × ℝ)) (r0 r1 : ℤ) (phase_width : ℕ)
    (_h : r0 ≤ r1) :
    (reproject_cartesian_to_polar fit img mask center angle lengths
        (r0, r1) phase_width).1.length = (r1 - r0).toNat ∧
      ∀ row ∈ (reproject_cartesian_to_polar fit img mask center angle
        lengths (r0, r1) phase_width).1, row.length = phase_width := by
  have hrad : ((reprojectRadSamples (r0, r1)).map
      (fun (z : ℤ) => (z : ℝ))).length = (r1 - r0).toNat := by
    rw [List.length_map]
    exact arange_length r0 r1
  unfold reproject_cartesian_to_polar
  constructor
  · rw [List.length_map, List.length_zipWith, ellipsoid_fst_length,
      ellipsoid_snd_length, hrad, min_self]
  · intro row hrow
    simp only [List.mem_map] at hrow
    obtain ⟨row0, hrow0, rfl⟩ := hrow
    rw [List.length_map]
    refine zipWith_zipWith_row_length _ _ _ phase_width ?_ ?_ row0 hrow0
    · intro ra hra
      rw [ellipsoid_fst_row_length _ _ _ _ _ ra hra]
      exact linspace_length _ _ _
    · intro rb hrb
      rw [ellipsoid_snd_row_length _ _ _ _ _ rb hrb]
      exact linspace_length _ _ _

/-- Witness for C2 at a concrete input, including that the shape is the
same for an empty radius range. -/
theorem reproject_shape_witness :
    ((reproject_cartesian_to_polar (fun _ _ _ => 0) [[1, 2], [3, 4]] none
        none none none (0, 2) 3).1.length = 2 ∧
      ∀ row ∈ (reproject_cartesian_to_polar (fun _ _ _ => 0)
        [[1, 2], [3, 4]] none none none none (0, 2) 3).1,
        row.length = 3) ∧
    ((reproject_cartesian_to_polar (fun _ _ _ => 0) [[1, 2], [3, 4]] none
        none none none (5, 5) 3).1.length = 0 ∧
      ∀ row ∈ (reproject_cartesian_to_polar (fun _ _ _ => 0)
        [[1, 2], [3, 4]] none none none none (5, 5) 3).1,
        row.length = 3) :=
  ⟨reproject_shape (fun _ _ _ => 0) [[1, 2], [3, 4]] none none none none
      0 2 3 (by decide),
    reproject_shape (fun _ _ _ => 0) [[1, 2], [3, 4]] none none none none
      5 5 3 (by decide)⟩

theorem linspace_getD {K : Type} [DivisionRing K] (a b : K) (n i : ℕ)
    (h : i < n) :
    (linspace a b n).getD i 0 = a + (i : K) * ((b - a) / ((n : K) - 1)) := by
  have hlen : i < (linspace a b n).length := by
    rw [linspace_length]; exact h
  rw [List.getD_eq_getElem _ _ hlen]
  unfold linspace
  simp only [List.getElem_map, List.getElem_range]

/-- Counterexample to claim C7: at `phase_width = 2` the angular samples
are `[0, 2*pi]` — `np.linspace(0, 2*np.pi, num=2)` includes its endpoint
by default — and not the half-open spacing `[0, pi]` that "`phase_width`
equally spaced values over `[0, 2*pi)` with step `2*pi/phase_width`"
prescribes. -/
theorem reproject_theta_not_half_open :
    reprojectThetaSamples 2 ≠
      (List.range 2).map (fun (i : ℕ) => (i : ℝ) * (2 * Real.pi / 2)) := by
  intro hEq
  have h1 : (reprojectThetaSamples 2).getD 1 0 = 2 * Real.pi := by
    unfold reprojectThetaSamples
    rw [linspace_getD 0 (2 * Real.pi) 2 1 (by decide)]
    norm_num
  have h2 : ((List.range 2).map
      (fun (i : ℕ) => (i : ℝ) * (2 * Real.pi / 2))).getD 1 0 = Real.pi := by
    have hr : (List.range 2) = [0, 1] := by decide
    rw [hr]
    norm_num
  rw [hEq, h2] at h1
  have hpi := Real.pi_pos
  linarith

/-- Claim C7 amended: the angular samples are `phase_width` equally
spaced values covering the closed interval `[0, 2*pi]` inclusive — both 0
and `2*pi` are samples and consecutive samples differ by
`2*pi/(phase_width-1)` (for `phase_width >= 2`); the radial samples are
exactly the integers in `[radius.1, radius.2)`. -/
theorem reproject_samples_spec (pw : ℕ) (hpw : 2 ≤ pw) (r0 r1 : ℤ)
    (_hr : r0 ≤ r1) :
    (reprojectThetaSamples pw).length = pw ∧
      (∀ i, i < pw → (reprojectThetaSamples pw).getD i 0 =
        (i : ℝ) * (2 * Real.pi / ((pw : ℝ) - 1))) ∧
      (reprojectThetaSamples pw).getD 0 0 = 0 ∧
      (reprojectThetaSamples pw).getD (pw - 1) 0 = 2 * Real.pi ∧
      (reprojectRadSamples (r0, r1)).length = (r1 - r0).toNat ∧
      (∀ i, i < (r1 - r0).toNat →
        (reprojectRadSamples (r0, r1)).getD i 0 = r0 + (i : ℤ)) := by
  have hone : (1 : ℕ) ≤ pw := le_trans (by norm_num) hpw
  have hpwR : (2 : ℝ) ≤ (pw : ℝ) := by exact_mod_cast hpw
  have hne : (pw : ℝ) - 1 ≠ 0 := by linarith
  have hent : ∀ i, i < pw → (reprojectThetaSamples pw).getD i 0 =
      (i : ℝ) * (2 * Real.pi / ((pw : ℝ) - 1)) := by
    intro i hi
    unfold reprojectThetaSamples
    rw [linspace_getD 0 (2 * Real.pi) pw i hi]
    ring
  refine ⟨linspace_length _ _ _, hent, ?_, ?_, arange_length r0 r1,
    fun i hi => arange_getD r0 r1 i hi⟩
  · rw [hent 0 (by omega)]
    norm_num
  · rw [hent (pw - 1) (by omega)]
    rw [Nat.cast_sub hone, Nat.cast_one]
    field_simp

/-- Witness for the amended C7 at `phase_width = 2`, `radius = (0, 1)`. -/
theorem reproject_samples_spec_witness :
    (reprojectThetaSamples 2).length = 2 ∧
      (∀ i, i < 2 → (reprojectThetaSamples 2).getD i 0 =
        (i : ℝ) * (2 * Real.pi / ((2 : ℝ) - 1))) ∧
      (reprojectThetaSamples 2).getD 0 0 = 0 ∧
      (reprojectThetaSamples 2).getD (2 - 1) 0 = 2 * Real.pi ∧
      (reprojectRadSamples (0, 1)).length = ((1 : ℤ) - 0).toNat ∧
      (∀ i, i < ((1 : ℤ) - 0).toNat →
        (reprojectRadSamples (0, 1)).getD i 0 = 0 + (i : ℤ)) := by
  have h := reproject_samples_spec 2 (by decide) 0 1 (by decide)
  simpa using h

/-- Claim C9: every pixel of the polar image returned by
`reproject_cartesian_to_polar` is either non-negative or exactly the
sentinel −10 (the final `polar_img[polar_img < 0] = -10` clamps every
negative interpolated value, masked-origin or genuinely negative, to
−10). -/
theorem reproject_output_clamped (fit : List (List ℝ) → ℝ → ℝ → ℝ)
    (img : List (List ℝ)) (mask : Option (List (List Bool)))
    (center : Option (ℝ × ℝ)) (angle : Option ℝ)
    (lengths : Option (ℝ × ℝ)) (radius : ℤ × ℤ) (phase_width : ℕ) :
    ∀ row ∈ (reproject_cartesian_to_polar fit img mask center angle
      lengths radius phase_width).1, ∀ v ∈ row, 0 ≤ v ∨ v = -10 := by
  intro row hrow v hv
  unfold reproject_cartesian_to_polar at hrow
  simp only [List.mem_map] at hrow
  obtain ⟨row0, _, rfl⟩ := hrow
  simp only [List.mem_map] at hv
  obtain ⟨u, _, rfl⟩ := hv
  by_cases hu : u < 0
  · right
    rw [if_pos hu]
  · left
    rw [if_neg hu]
    exact not_lt.mp hu

/-- Witness for C9: a constant interpolant with value 1 yields the output
pixel 1, for which the theorem gives the clamping disjunction. -/
theorem reproject_output_clamped_witness :
    (0 : ℝ) ≤ 1 ∨ (1 : ℝ) = -10 := by
  have h0 : (reproject_cartesian_to_polar (fun _ _ _ => 1) [[5]] none
      (some (0, 0)) none none (0, 1) 1).1 =
      [[if (1 : ℝ) < 0 then (-10 : ℝ) else 1]] := rfl
  have h1 : (reproject_cartesian_to_polar (fun _ _ _ => 1) [[5]] none
      (some (0, 0)) none none (0, 1) 1).1 = [[(1 : ℝ)]] := by
    rw [h0]
    norm_num
  refine reproject_output_clamped (fun _ _ _ => 1) [[5]] none
    (some (0, 0)) none none (0, 1) 1 [(1 : ℝ)] ?_ 1 ?_
  · rw [h1]
    exact List.mem_singleton.mpr rfl
  · exact List.mem_singleton.mpr rfl

/-- Counterexample to claim C5: `reproject_cartesian_to_polar` does not
leave a masked input unchanged — `intensity = img.data` aliases the
caller's buffer and `intensity[img.mask] = -999999` overwrites the masked
pixels, so the input `[[1]]` with an all-true mask holds `[[-999999]]`
after the call. -/
theorem reproject_mutates_masked_input :
    (reproject_cartesian_to_polar (fun _ _ _ => 0) [[1]] (some [[true]])
      none none none (0, 1) 1).2 ≠ [[1]] := by
  intro hEq
  have h0 : (reproject_cartesian_to_polar (fun _ _ _ => 0) [[1]]
      (some [[true]]) none none none (0, 1) 1).2 =
      [[(-999999 : ℝ)]] := rfl
  rw [h0] at hEq
  simp only [List.cons.injEq, and_true] at hEq
  norm_num at hEq

/-- Claim C5 amended: the input is left unchanged when no validity mask
is present; when a mask is supplied, the call rewrites the input in
place, setting each masked pixel to −999999 and leaving unmasked pixels
at their original values. -/
theorem reproject_input_mutation_spec (fit : List (List ℝ) → ℝ → ℝ → ℝ)
    (img : List (List ℝ)) (center : Option (ℝ × ℝ)) (angle : Option ℝ)
    (lengths : Option (ℝ × ℝ)) (radius : ℤ × ℤ) (phase_width : ℕ) :
    ((reproject_cartesian_to_polar fit img none center angle lengths
        radius phase_width).2 = img) ∧
      (∀ msk : List (List Bool), ∀ i j : ℕ, i < img.length →
        i < msk.length → j < (img.getD i []).length →
        j < (msk.getD i []).length →
        ((reproject_cartesian_to_polar fit img (some msk) center angle
            lengths radius phase_width).2.getD i []).getD j 0 =
          if (msk.getD i []).getD j false then (-999999 : ℝ)
          else (img.getD i []).getD j 0) := by
  constructor
  · rfl
  · intro msk i j hi1 hi2 hj1 hj2
    have h2 : (reproject_cartesian_to_polar fit img (some msk) center
        angle lengths radius phase_width).2 =
        List.zipWith (List.zipWith
          (fun v b => if b then (-999999 : ℝ) else v)) img msk := rfl
    have ei : img.getD i [] = img[i] := List.getD_eq_getElem img [] hi1
    have em : msk.getD i [] = msk[i] := List.getD_eq_getElem msk [] hi2
    rw [ei] at hj1
    rw [em] at hj2
    have hi : i < (List.zipWith (List.zipWith
        (fun v b => if b then (-999999 : ℝ) else v)) img msk).length := by
      rw [List.length_zipWith]
      exact lt_min hi1 hi2
    have hj : j < (List.zipWith
        (fun v b => if b then (-999999 : ℝ) else v) img[i] msk[i]).length := by
      rw [List.length_zipWith]
      exact lt_min hj1 hj2
    rw [h2, List.getD_eq_getElem _ _ hi, List.getElem_zipWith,
      List.getD_eq_getElem _ _ hj, List.getElem_zipWith, ei, em,
      List.getD_eq_getElem _ _ hj2, List.getD_eq_getElem _ _ hj1]

/-- Witness for the amended C5: no mask leaves `[[1]]` intact; an
all-true mask rewrites the single input pixel to −999999. -/
theorem reproject_input_mutation_spec_witness :
    (reproject_cartesian_to_polar (fun _ _ _ => 0) [[1]] none none none
        none (0, 1) 1).2 = [[1]] ∧
      ((reproject_cartesian_to_polar (fun _ _ _ => 0) [[1]]
        (some [[true]]) none none none (0, 1) 1).2.getD 0 []).getD 0 0 =
        -999999 := by
  have h := reproject_input_mutation_spec (fun _ _ _ => 0) [[(1 : ℝ)]]
    none none none (0, 1) 1
  refine ⟨h.1, ?_⟩
  have h2 := h.2 [[true]] 0 0 (by decide) (by decide) (by decide)
    (by decide)
  simpa using h2

/-! ## BeamCenterEstimators: `find_beam_offset_cross_correlation`

Source: `pyxem/utils/expt_utils.py`, lines 720-765.  One correlation
trial — drawing the reference circle of a given radius at the rounded
image center, windowing both images with the square-root-outer-product
Hann window, and running `register_translation` at a given upsample
factor — depends on the varying radius and upsample factor only, and its
skimage/numpy internals are external collaborators; it enters as the
parameter `trial`, returning the (shift, error) pair.  `errRecord` has
dtype `'single'`, so the float32 cast applied when an error is stored
enters as the parameter `single`.  The loop recomputes
`index_min = np.argmin(errRecord)` on every iteration, but only the last
iteration's value survives, at which point every entry of `errRecord`
has been overwritten; the embedding therefore takes the argmin of the
fully populated record.  `np.argmin` returns the first index attaining
the minimum, i.e. ties go to the smallest radius. -/

/-- The populated `errRecord` array: one recorded (float32-cast) residual
error per radius in `[radius_start, radius_finish)`, from coarse
(upsample factor 10) cross-correlation trials. -/
def crossCorrelationErrRecord (trial : ℤ → ℕ → (ℚ × ℚ) × ℚ)
    (single : ℚ → ℚ) (radius_start radius_finish : ℤ) : List ℚ :=
  (arange radius_start radius_finish).map (fun r => single (trial r 10).2)

/-- Embedding of `find_beam_offset_cross_correlation(z, radius_start,
radius_finish)`: re-runs the trial at the argmin radius with fine
precision (upsample factor 100) and returns `shift - 0.5`
componentwise. -/
def find_beam_offset_cross_correlation (trial : ℤ → ℕ → (ℚ × ℚ) × ℚ)
    (single : ℚ → ℚ) (radius_start radius_finish : ℤ) : ℚ × ℚ :=
  let radiusList := arange radius_start radius_finish
  let errRecord := crossCorrelationErrRecord trial single radius_start
    radius_finish
  let index_min := npArgmin errRecord
  let shift := (trial (radiusList.getD index_min 0) 100).1
  (shift.1 - 1 / 2, shift.2 - 1 / 2)

theorem crossCorrelationErrRecord_length (trial : ℤ → ℕ → (ℚ × ℚ) × ℚ)
    (single : ℚ → ℚ) (rs rf : ℤ) :
    (crossCorrelationErrRecord trial single rs rf).length =
      (rf - rs).toNat := by
  unfold crossCorrelationErrRecord
  rw [List.length_map, arange_length]

theorem crossCorrelationErrRecord_getD (trial : ℤ → ℕ → (ℚ × ℚ) × ℚ)
    (single : ℚ → ℚ) (rs rf : ℤ) (i : ℕ) (hi : i < (rf - rs).toNat) :
    (crossCorrelationErrRecord trial single rs rf).getD i 0 =
      single (trial (rs + (i : ℤ)) 10).2 := by
  have hlen : i < (crossCorrelationErrRecord trial single rs rf).length := by
    rw [crossCorrelationErrRecord_length]; exact hi
  have hlen2 : i < (arange rs rf).length := by rw [arange_length]; exact hi
  rw [List.getD_eq_getElem _ _ hlen]
  unfold crossCorrelationErrRecord
  rw [List.getElem_map, ← List.getD_eq_getElem (arange rs rf) 0 hlen2,
    arange_getD rs rf i hi]

/-- Claim C3: `find_beam_offset_cross_correlation` records one residual
error per integer radius in `[radius_start, radius_finish)`; it selects
the index of minimal recorded error, taking the first (smallest) radius
on an exact tie; and it returns the fine-precision (upsample factor 100)
offset at the selected radius minus 0.5 in each component. -/
theorem find_beam_offset_selects_min_radius
    (trial : ℤ → ℕ → (ℚ × ℚ) × ℚ) (single : ℚ → ℚ) (rs rf : ℤ)
    (h : rs < rf) :
    (crossCorrelationErrRecord trial single rs rf).length =
        (rf - rs).toNat ∧
      (∀ i, i < (rf - rs).toNat →
        (crossCorrelationErrRecord trial single rs rf).getD i 0 =
          single (trial (rs + (i : ℤ)) 10).2) ∧
      npArgmin (crossCorrelationErrRecord trial single rs rf) <
        (rf - rs).toNat ∧
      (∀ j, j < (rf - rs).toNat →
        (crossCorrelationErrRecord trial single rs rf).getD
            (npArgmin (crossCorrelationErrRecord trial single rs rf)) 0 ≤
          (crossCorrelationErrRecord trial single rs rf).getD j 0) ∧
      (∀ j, j < npArgmin (crossCorrelationErrRecord trial single rs rf) →
        (crossCorrelationErrRecord trial single rs rf).getD
            (npArgmin (crossCorrelationErrRecord trial single rs rf)) 0 <
          (crossCorrelationErrRecord trial single rs rf).getD j 0) ∧
      find_beam_offset_cross_correlation trial single rs rf =
        ((trial (rs + (npArgmin (crossCorrelationErrRecord trial single
            rs rf) : ℤ)) 100).1.1 - 1 / 2,
          (trial (rs + (npArgmin (crossCorrelationErrRecord trial single
            rs rf) : ℤ)) 100).1.2 - 1 / 2) := by
  have hpos : 0 < (rf - rs).toNat := by omega
  have hne : crossCorrelationErrRecord trial single rs rf ≠ [] := by
    intro hnil
    have := crossCorrelationErrRecord_length trial single rs rf
    rw [hnil] at this
    simp at this
    omega
  have hargmin := npArgmin_lt_length (α := ℚ) hne
  have hargmin2 : npArgmin (crossCorrelationErrRecord trial single rs rf) <
      (rf - rs).toNat := by
    rw [← crossCorrelationErrRecord_length trial single rs rf]
    exact hargmin
  refine ⟨crossCorrelationErrRecord_length trial single rs rf,
    fun i hi => crossCorrelationErrRecord_getD trial single rs rf i hi,
    hargmin2, ?_, fun j hj => npArgmin_first 0 hne j hj, ?_⟩
  · intro j hj
    have hjlen : j < (crossCorrelationErrRecord trial single rs rf).length := by
      rw [crossCorrelationErrRecord_length]; exact hj
    refine npArgmin_le 0 hne _ ?_
    rw [List.getD_eq_getElem _ _ hjlen]
    exact List.getElem_mem hjlen
  · simp only [find_beam_offset_cross_correlation]
    rw [arange_getD rs rf _ hargmin2]

/-- Witness for C3: trial errors 0 at radius 6 and 1 elsewhere over radii
4..7; the argmin radius is 6 and the returned offset is the fine trial's
shift at radius 6 minus a half in each component. -/
theorem find_beam_offset_selects_min_radius_witness :
    find_beam_offset_cross_correlation
      (fun r u => (((r : ℚ), (u : ℚ)), if r = 6 then 0 else 1)) id 4 8 =
      (6 - 1 / 2, 100 - 1 / 2) := by
  have h := find_beam_offset_selects_min_radius
    (fun r u => (((r : ℚ), (u : ℚ)), if r = 6 then 0 else 1)) id 4 8
    (by decide)
  have ha : npArgmin (crossCorrelationErrRecord
      (fun r u => (((r : ℚ), (u : ℚ)), if r = 6 then 0 else 1)) id 4 8) =
      2 := by decide
  have hres := h.2.2.2.2.2
  rw [ha] at hres
  rw [hres]
  norm_num

/-! ## BeamCenterEstimators: `find_beam_center_blur`

Source: `pyxem/utils/expt_utils.py`, lines 701-717.
`ndi.gaussian_filter(z, sigma, mode='wrap')` is an external scipy
collaborator (parameter `blur`); that it preserves the image's
rectangular shape is recorded as a hypothesis of the claim theorem.
`np.argmax` on a 2D array flattens it in row-major order, and
`np.unravel_index(k, (m, n))` is `(k / n, k % n)`. -/

/-- Embedding of `find_beam_center_blur(z, sigma)`: blur with wrap-around
boundary handling, then the (row, col) index of the global maximum. -/
def find_beam_center_blur (blur : ℕ → List (List ℚ) → List (List ℚ))
    (z : List (List ℚ)) (sigma : ℕ) : ℕ × ℕ :=
  let blurred := blur sigma z
  let k := npArgmax blurred.flatten
  (k / (blurred.headD []).length, k % (blurred.headD []).length)

theorem flatten_length_rect {α : Type} (L : List (List α)) (n : ℕ)
    (h : ∀ row ∈ L, row.length = n) : L.flatten.length = L.length * n := by
  induction L with
  | nil => simp
  | cons a t ih =>
    rw [List.flatten_cons, List.length_append, h a (List.mem_cons_self a t),
      ih (fun row hr => h row (List.mem_cons_of_mem a hr)),
      List.length_cons]
    ring

theorem flatten_getD_rect {α : Type} (L : List (List α)) (n : ℕ) (d : α)
    (h : ∀ row ∈ L, row.length = n) (i j : ℕ) (hi : i < L.length)
    (hj : j < n) :
    L.flatten.getD (i * n + j) d = (L.getD i []).getD j d := by
  induction L generalizing i with
  | nil => simp at hi
  | cons a t ih =>
    have ha : a.length = n := h a (List.mem_cons_self a t)
    cases i with
    | zero =>
      rw [List.flatten_cons, Nat.zero_mul, Nat.zero_add]
      rw [List.getD_append a t.flatten d j (by rw [ha]; exact hj)]
      rfl
    | succ i2 =>
      have hstep : (i2 + 1) * n + j = a.length + (i2 * n + j) := by
        rw [ha]; ring
      rw [List.flatten_cons, hstep,
        List.getD_append_right a t.flatten d _ (Nat.le_add_right _ _),
        Nat.add_sub_cancel_left]
      exact ih (fun row hr => h row (List.mem_cons_of_mem a hr)) i2
        (Nat.lt_of_succ_lt_succ hi)

theorem headD_eq_getD_zero {β : Type} (L : List β) (d : β) (h : L ≠ []) :
    L.headD d = L.getD 0 d := by
  cases L with
  | nil => exact absurd rfl h
  | cons a t => rfl

/-- Claim C10: for every non-empty rectangular image, assuming only that
the external Gaussian blur preserves the image's shape,
`find_beam_center_blur` returns integer indices `(row, col)` within the
image bounds, at which the wrap-blurred image attains its global
maximum. -/
theorem find_beam_center_blur_in_bounds
    (blur : ℕ → List (List ℚ) → List (List ℚ)) (z : List (List ℚ))
    (sigma m n : ℕ) (hm : 0 < m) (hn : 0 < n)
    (hzlen : z.length = m) (_hzrow : ∀ row ∈ z, row.length = n)
    (hblen : (blur sigma z).length = m)
    (hbrow : ∀ row ∈ blur sigma z, row.length = n) :
    (find_beam_center_blur blur z sigma).1 < m ∧
      (find_beam_center_blur blur z sigma).2 < n ∧
      ∀ i j, i < m → j < n →
        ((blur sigma z).getD i []).getD j 0 ≤
          ((blur sigma z).getD (find_beam_center_blur blur z sigma).1
            []).getD (find_beam_center_blur blur z sigma).2 0 := by
  have hflat : (blur sigma z).flatten.length = m * n := by
    rw [flatten_length_rect (blur sigma z) n hbrow, hblen]
  have hfne : (blur sigma z).flatten ≠ [] :=
    List.ne_nil_of_length_pos (by rw [hflat]; exact Nat.mul_pos hm hn)
  have hk : npArgmax (blur sigma z).flatten < m * n := by
    rw [← hflat]
    exact npArgmax_lt_length hfne
  have hBne : blur sigma z ≠ [] := by
    intro he
    rw [he] at hblen
    simp at hblen
    omega
  have hhead : ((blur sigma z).headD []).length = n := by
    rw [headD_eq_getD_zero _ _ hBne,
      List.getD_eq_getElem _ _ (by rw [hblen]; exact hm)]
    exact hbrow _ (List.getElem_mem (by rw [hblen]; exact hm))
  have hfst : (find_beam_center_blur blur z sigma).1 =
      npArgmax (blur sigma z).flatten / n := by
    simp only [find_beam_center_blur]
    rw [hhead]
  have hsnd : (find_beam_center_blur blur z sigma).2 =
      npArgmax (blur sigma z).flatten % n := by
    simp only [find_beam_center_blur]
    rw [hhead]
  have hrow : npArgmax (blur sigma z).flatten / n < m :=
    (Nat.div_lt_iff_lt_mul hn).mpr (by rw [Nat.mul_comm] at hk ⊢; exact hk)
  have hcol : npArgmax (blur sigma z).flatten % n < n :=
    Nat.mod_lt _ hn
  refine ⟨by rw [hfst]; exact hrow, by rw [hsnd]; exact hcol, ?_⟩
  intro i j hi hj
  have hidx : i * n + j < m * n := by
    calc i * n + j < i * n + n := by omega
    _ = (i + 1) * n := by ring
    _ ≤ m * n := Nat.mul_le_mul_right n hi
  have h1 : (blur sigma z).flatten.getD (i * n + j) 0 =
      ((blur sigma z).getD i []).getD j 0 :=
    flatten_getD_rect (blur sigma z) n 0 hbrow i j (by rw [hblen]; exact hi)
      hj
  have hksplit : (npArgmax (blur sigma z).flatten / n) * n +
      npArgmax (blur sigma z).flatten % n =
      npArgmax (blur sigma z).flatten := by
    rw [Nat.mul_comm]
    exact Nat.div_add_mod _ n
  have h2 : (blur sigma z).flatten.getD (npArgmax (blur sigma z).flatten)
      0 = ((blur sigma z).getD (npArgmax (blur sigma z).flatten / n)
        []).getD (npArgmax (blur sigma z).flatten % n) 0 := by
    conv_lhs => rw [← hksplit]
    exact flatten_getD_rect (blur sigma z) n 0 hbrow _ _
      (by rw [hblen]; exact hrow) hcol
  have hidx2 : i * n + j < (blur sigma z).flatten.length := by
    rw [hflat]; exact hidx
  have hmem : (blur sigma z).flatten.getD (i * n + j) 0 ∈
      (blur sigma z).flatten := by
    rw [List.getD_eq_getElem _ _ hidx2]
    exact List.getElem_mem hidx2
  have hle := npArgmax_le 0 hfne _ hmem
  rw [h1, h2] at hle
  rw [hfst, hsnd]
  exact hle

/-- Witness for C10: identity blur on the 2×2 image `[[1,2],[4,3]]`. -/
theorem find_beam_center_blur_in_bounds_witness :
    (find_beam_center_blur (fun _ x => x) [[1, 2], [4, 3]] 10).1 < 2 ∧
      (find_beam_center_blur (fun _ x => x) [[1, 2], [4, 3]] 10).2 < 2 ∧
      ∀ i j, i < 2 → j < 2 →
        (([[(1 : ℚ), 2], [4, 3]]).getD i []).getD j 0 ≤
          (([[(1 : ℚ), 2], [4, 3]]).getD
            (find_beam_center_blur (fun _ x => x) [[1, 2], [4, 3]] 10).1
            []).getD
            (find_beam_center_blur (fun _ x => x) [[1, 2], [4, 3]] 10).2
            0 :=
  find_beam_center_blur_in_bounds (fun _ x => x) [[1, 2], [4, 3]] 10 2 2
    (by decide) (by decide) (by decide) (by decide) (by decide) (by decide)

end Pyxem
